import Mathlib

/-!
Verification of the smolink URL shortener (`src/main.go`, enhanced variant;
the base variant `src/unnamed/part_000` differs only in the method set of the
create route and the duplicated `shorturl` response field).

Strings are modelled as `List Char`. Database state is modelled as the lists
of rows of the two tables (`authorization` keys, `links` rows), in insertion
order; a `QueryRow` is the head of the rows matching the WHERE clause, and a
`Scan` error is the no-rows case. Side effects that the claims do not touch
(timestamps, logging, the sqlite connection) are elided.
-/

namespace Smolink

/-- Go strings, modelled as lists of characters. -/
abbrev Str := List Char

/-! ## Models of the Go standard library functions the source calls -/

/-- Model of Go `strings.HasPrefix pre s` (used to locate separator
occurrences inside `strings.Split`). -/
def hasPrefix : Str → Str → Bool
  | [], _ => true
  | _ :: _, [] => false
  | p :: ps, c :: cs => decide (p = c) && hasPrefix ps cs

/-- Model of Go `strings.Contains s sub`: some occurrence of `sub` starts at
some position of `s`. -/
def goContains : Str → Str → Bool
  | [], sub => sub.isEmpty
  | c :: cs, sub => hasPrefix sub (c :: cs) || goContains cs sub

/-- Worker for `goSplit`, structurally recursive on a fuel argument so that
concrete applications compute inside the kernel.  Scans left to right; at an
occurrence of `sep` it closes the current piece and skips the separator. -/
def goSplitFuel (sep : Str) : Nat → Str → List Str
  | 0, s => [s]
  | _ + 1, [] => [[]]
  | fuel + 1, c :: cs =>
    if hasPrefix sep (c :: cs) then
      [] :: goSplitFuel sep fuel ((c :: cs).drop sep.length)
    else
      (goSplitFuel sep fuel cs).modifyHead (fun t => c :: t)

/-- Model of Go `strings.Split s sep` for a nonempty separator (the source
only ever splits on `"Bearer "`): the pieces of `s` between the
left-to-right, non-overlapping occurrences of `sep`. -/
def goSplit (sep s : Str) : List Str := goSplitFuel sep (s.length + 1) s

/-- The split of `s` at the first occurrence of `sep`:
`some (before, after)`, or `none` when `sep` does not occur.  Used to state
what `goSplit` does to the first occurrence. -/
def splitAtFirst (sep : Str) : Str → Option (Str × Str)
  | [] => none
  | c :: cs =>
    if hasPrefix sep (c :: cs) then
      some ([], (c :: cs).drop sep.length)
    else
      (splitAtFirst sep cs).map (fun pr => (c :: pr.1, pr.2))

/-- Model of Go `strings.ReplaceAll s "/" ""` as the source applies it:
every slash character is removed. -/
def replaceAllSlash (s : Str) : Str := s.filter (fun c => decide (c ≠ '/'))

/-- The characters of the fragment on which the `net/url` parse model below
is exact: ASCII letters and digits, the RFC 3986 unreserved marks
`- _ . ~`, and the reserved characters `/ : & = $ + , ; @` that Go neither
rejects nor percent-escapes when re-serializing a path.  Everything else is
outside the fragment: control bytes (Go's parser rejects the whole URL),
`%` (escape sequences), `?`, `#`, space, and the characters Go's path
encoder escapes on `String()` (such as `{`, `}`, `<`, `>`, `|`, `^`, the
backslash, the quotes, the backquote and all non-ASCII characters). -/
def urlOkChar (c : Char) : Bool :=
  (decide ('a' ≤ c) && decide (c ≤ 'z')) || (decide ('A' ≤ c) && decide (c ≤ 'Z')) ||
  (decide ('0' ≤ c) && decide (c ≤ '9')) ||
  decide (c ∈ (['-', '_', '.', '~', '/', ':', '&', '=', '$', '+', ',', ';', '@'] : List Char))

def isAlphaChar (c : Char) : Bool :=
  (decide ('a' ≤ c) && decide (c ≤ 'z')) || (decide ('A' ≤ c) && decide (c ≤ 'Z'))

/-- Characters Go accepts in a registered host name verbatim: letters,
digits, dots and hyphens (no `:`, so the model never meets Go's port
validation, and nothing Go's host encoder would escape). -/
def hostOkChar (c : Char) : Bool :=
  isAlphaChar c || (decide ('0' ≤ c) && decide (c ≤ '9')) ||
    decide (c = '.') || decide (c = '-')

/-- Model of the absolute-URL shape `net/url` accepts, restricted to an
alphabetic scheme followed by `"://"` and a nonempty registered host of
`hostOkChar` characters, then optionally a slash and a path.  The host
restriction keeps the model inside the fragment where Go's authority
parsing accepts the input verbatim. -/
def isAbsURL (s : Str) : Bool :=
  let sch := s.takeWhile (fun c => decide (c ≠ ':'))
  let rest := s.dropWhile (fun c => decide (c ≠ ':'))
  let host := (rest.drop 3).takeWhile (fun c => decide (c ≠ '/'))
  !sch.isEmpty && sch.all isAlphaChar && hasPrefix ("://".toList) rest &&
    !host.isEmpty && host.all hostOkChar

/-- Go's `url.parse` lowercases the scheme of an absolute URL
(`u.Scheme = strings.ToLower(u.Scheme)` in `net/url`), so `String()` writes
the scheme in lower case whatever case the input wrote. -/
def canonicalizeScheme (s : Str) : Str :=
  (s.takeWhile (fun c => decide (c ≠ ':'))).map Char.toLower ++
    s.dropWhile (fun c => decide (c ≠ ':'))

/-- The `String()` re-serialization of a parsed input of the fragment: the
input itself for an origin-form path, the input with its scheme lowercased
for an absolute URL. -/
def goURLString (s : Str) : Str :=
  if hasPrefix ("/".toList) s then s else canonicalizeScheme s

/-- The `.Path` of a parsed absolute URL: the suffix starting at the first
slash after the `"://"` separator (empty when there is none). -/
def absPath (s : Str) : Str :=
  ((s.dropWhile (fun c => decide (c ≠ ':'))).drop 3).dropWhile (fun c => decide (c ≠ '/'))

/-- The fields of a parsed `*url.URL` the source reads: `.Path` and the
`String()` re-serialization. -/
structure GoURL where
  path : Str
  repr : Str
deriving DecidableEq

/-- Model of Go `url.ParseRequestURI`, restricted to inputs made of
`urlOkChar` characters (so no escape sequences, no query or fragment, and
nothing Go's parser rejects or its encoder escapes): such an input parses
iff it is an origin-form path (leading slash) or an absolute URL of the
modelled shape; `.Path` is the input for origin-form paths and the part
after the host for absolute URLs, and `String()` is `goURLString` (the
input, an absolute URL's scheme lowercased).  `none` models the `nil`
pointer Go returns beside the error. -/
def parseRequestURI (s : Str) : Option GoURL :=
  if s.all urlOkChar && (hasPrefix ("/".toList) s || isAbsURL s) then
    some ⟨if hasPrefix ("/".toList) s then s else absPath s, goURLString s⟩
  else
    none

/-- A syntactically valid absolute URL, in the fragment of inputs the parse
model covers. -/
def validAbsoluteURL (s : Str) : Bool := s.all urlOkChar && isAbsURL s

/-! ## The link store (`src/main.go` lines 29-88) -/

/-- The one storage error a pure model can raise: the `links` primary-key
uniqueness constraint. -/
inductive SqlErr
  | uniqueViolation
deriving DecidableEq

/-- The rows of the two tables, in insertion order: the `key` column of
`authorization` and the `(short_url, full_url)` columns of `links`. -/
structure DBState where
  authKeys : List Str
  links : List (Str × Str)
deriving DecidableEq

/-- `validateAuthorization` (main.go 33-44): `QueryRow` on
`select key from authorization where key = ?`, then `Scan`; a scan error
(no row) yields `false`, otherwise the scanned key is compared to the
presented token. -/
def validateAuthorization (d : DBState) (token : Str) : Bool :=
  match (d.authKeys.filter (fun k => decide (k = token))).head? with
  | none => false
  | some dbToken => decide (token = dbToken)

/-- `mkShortURL` (main.go 86-88): the configured base URL, a slash, the key. -/
def mkShortURL (base path : Str) : Str := base ++ ('/' :: path)

/-- `saveShortUrl` (main.go 46-51).  `key` stands for the `shortuuid.New()`
call, passed in as a parameter; the insert errors iff it violates the
`short_url` primary-key constraint. -/
def saveShortUrl (base key : Str) (d : DBState) (originalUrl : Str) :
    (Str × Option SqlErr) × DBState :=
  let short := mkShortURL base key
  if d.links.any (fun p => decide (p.1 = key)) then
    ((short, some .uniqueViolation), d)
  else
    ((short, none), ⟨d.authKeys, d.links ++ [(key, originalUrl)]⟩)

/-- The outcomes of `getFullUrl`: a found row, a scan error (no row), or the
runtime panic the source reaches by reading `.Path` off the `nil` URL before
checking the parse error (main.go line 56 runs before the check at 57-59). -/
inductive LookupResult
  | ok (fullUrl : Str)
  | noRows
  | nilPanic
deriving DecidableEq

/-- `getFullUrl` (main.go 53-64): parse the presented path, strip slashes
from `.Path`, query `links` by the result.  When the parse fails the Go code
dereferences the `nil` pointer at the `ReplaceAll` line before its error
check, which is a panic, not an error return. -/
def getFullUrl (d : DBState) (shortUrl : Str) : LookupResult :=
  match parseRequestURI shortUrl with
  | none => .nilPanic
  | some u =>
    let path := replaceAllSlash u.path
    match (d.links.filter (fun p => decide (p.1 = path))).head? with
    | none => .noRows
    | some row => .ok row.2

/-- `generateDefaultAuthorizationToken` (main.go 66-80): `QueryRow` on
`select key from authorization`; when a row scans, return the empty string
and no error without touching the store; otherwise insert a fresh key
(`fresh` stands for the `uuid.New().String()` call) and return it. -/
def generateDefaultAuthorizationToken (fresh : Str) (d : DBState) :
    (Str × Option SqlErr) × DBState :=
  match d.authKeys.head? with
  | some _ => (([], none), d)
  | none => ((fresh, none), ⟨d.authKeys ++ [fresh], d.links⟩)

/-! ## The HTTP surface (`src/main.go` lines 90-151) -/

/-- What a handler writes: an `http.Error` with its body and status, the JSON
success body of the create route, an `http.Redirect`, or a runtime panic. -/
inductive HResponse
  | httpError (body : Str) (status : Nat)
  | jsonOk (url shorturl : Str)
  | redirect (location : Str) (status : Nat)
  | panicked
deriving DecidableEq

def methodPost : Str := "POST".toList

def methodGet : Str := "GET".toList

/-- The `"Bearer "` separator of the create handler. -/
def bearerSep : Str := "Bearer ".toList

/-- The `strings.Split(authHeader, "Bearer ")[1]` expression of the create
handler: `none` models the index-out-of-range panic. -/
def extractBearerToken (authHeader : Str) : Option Str :=
  ((goSplit bearerSep authHeader).drop 1).head?

/-- `createLinkHandler` (main.go 90-132), enhanced variant: guard on the
Authorization header (nonempty and containing `"Bearer "`), extract the
token at index 1 of the split, validate it, then switch on the method; POST
and GET parse the `url` query parameter, store `url.String()` under a fresh
key and answer with the JSON body.  `base` stands for `BASE_URL`, `freshKey`
for the `shortuuid.New()` call inside `saveShortUrl`. -/
def createLinkHandler (base freshKey : Str) (d : DBState)
    (method authHeader urlParam : Str) : HResponse × DBState :=
  if decide (authHeader.length < 1) || !goContains authHeader bearerSep then
    (.httpError ("Unauthorized".toList) 401, d)
  else
    match extractBearerToken authHeader with
    | none => (.panicked, d)
    | some token =>
      if !validateAuthorization d token then
        (.httpError ("Unauthorized".toList) 401, d)
      else if method = methodPost ∨ method = methodGet then
        match parseRequestURI urlParam with
        | none => (.httpError ("Malformed URL".toList) 400, d)
        | some u =>
          match saveShortUrl base freshKey d u.repr with
          | ((_, some _), d2) => (.httpError ("Failed to create short url".toList) 500, d2)
          | ((short, none), d2) => (.jsonOk short short, d2)
      else
        (.httpError ("Method not supported".toList) 405, d)

/-- `expandLinkHandler` (main.go 134-151): on GET, look the request path up
and either redirect with 307 to the stored URL or answer 500; any other
method answers 405.  The handler never changes the store. -/
def expandLinkHandler (d : DBState) (method reqPath : Str) : HResponse :=
  if method = methodGet then
    match getFullUrl d reqPath with
    | .nilPanic => .panicked
    | .noRows => .httpError ("Failed to get full url".toList) 500
    | .ok fullUrl => .redirect fullUrl 307
  else
    .httpError ("Method not supported".toList) 405


/-! ## Structure of `goSplit` -/

theorem goSplitFuel_congr (sep : Str) (hsep : sep ≠ []) :
    ∀ f1 f2 s, s.length < f1 → s.length < f2 →
      goSplitFuel sep f1 s = goSplitFuel sep f2 s := by
  intro f1
  induction f1 with
  | zero => intro f2 s h1 _; omega
  | succ f ih =>
    intro f2 s h1 h2
    have hsl : 0 < sep.length := List.length_pos.mpr hsep
    cases f2 with
    | zero => omega
    | succ g =>
      cases s with
      | nil => rfl
      | cons c cs =>
        simp only [goSplitFuel]
        by_cases hp : hasPrefix sep (c :: cs) = true
        · simp only [hp, if_true]
          refine congrArg (List.cons []) (ih g ((c :: cs).drop sep.length) ?_ ?_)
          · simp only [List.length_drop, List.length_cons] at h1 ⊢
            omega
          · simp only [List.length_drop, List.length_cons] at h2 ⊢
            omega
        · simp only [hp, if_false]
          refine congrArg (List.modifyHead fun t => c :: t) (ih g cs ?_ ?_)
          · simp only [List.length_cons] at h1
            omega
          · simp only [List.length_cons] at h2
            omega

theorem goSplit_cons_of_hasPrefix (sep : Str) (hsep : sep ≠ []) {c : Char} {cs : Str}
    (h : hasPrefix sep (c :: cs) = true) :
    goSplit sep (c :: cs) = [] :: goSplit sep ((c :: cs).drop sep.length) := by
  have hsl : 0 < sep.length := List.length_pos.mpr hsep
  simp only [goSplit, goSplitFuel, h, if_true]
  congr 1
  exact goSplitFuel_congr sep hsep _ _ _
    (by simp only [List.length_drop, List.length_cons]; omega) (Nat.lt_succ_self _)

theorem goSplit_cons_of_not_hasPrefix (sep : Str) {c : Char} {cs : Str}
    (h : hasPrefix sep (c :: cs) = false) :
    goSplit sep (c :: cs) = (goSplit sep cs).modifyHead (fun t => c :: t) := by
  simp only [goSplit, goSplitFuel, h, if_false]
  rfl

theorem splitAtFirst_none (sep : Str) :
    ∀ {s : Str}, splitAtFirst sep s = none → goSplit sep s = [s]
  | [], _ => rfl
  | c :: cs, h => by
    by_cases hp : hasPrefix sep (c :: cs) = true
    · simp [splitAtFirst, hp] at h
    · have hrec : splitAtFirst sep cs = none := by
        simpa [splitAtFirst, hp, Option.map_eq_none'] using h
      rw [goSplit_cons_of_not_hasPrefix sep (by simpa using hp),
        splitAtFirst_none sep hrec]
      rfl

theorem splitAtFirst_some (sep : Str) (hsep : sep ≠ []) :
    ∀ {s pre post : Str}, splitAtFirst sep s = some (pre, post) →
      goSplit sep s = pre :: goSplit sep post
  | [], _, _, h => Option.noConfusion h
  | c :: cs, pre, post, h => by
    by_cases hp : hasPrefix sep (c :: cs) = true
    · simp only [splitAtFirst, hp, if_true, Option.some.injEq, Prod.mk.injEq] at h
      obtain ⟨rfl, rfl⟩ := h
      exact goSplit_cons_of_hasPrefix sep hsep hp
    · have hp' : hasPrefix sep (c :: cs) = false := by simpa using hp
      have h' : (splitAtFirst sep cs).map (fun pr => (c :: pr.1, pr.2)) = some (pre, post) := by
        simpa [splitAtFirst, hp'] using h
      rcases Option.map_eq_some'.mp h' with ⟨⟨pre', post'⟩, hrec, heq⟩
      simp only [Prod.mk.injEq] at heq
      obtain ⟨rfl, rfl⟩ := heq
      rw [goSplit_cons_of_not_hasPrefix sep hp', splitAtFirst_some sep hsep hrec]
      rfl

theorem goSplit_ne_nil (sep : Str) (hsep : sep ≠ []) (s : Str) : goSplit sep s ≠ [] := by
  cases h : splitAtFirst sep s with
  | none => rw [splitAtFirst_none sep h]; simp
  | some pr =>
    obtain ⟨pre, post⟩ := pr
    rw [splitAtFirst_some sep hsep h]
    simp

theorem goContains_splitAtFirst (sep : Str) (hsep : sep ≠ []) :
    ∀ {s : Str}, goContains s sep = true → (splitAtFirst sep s).isSome = true
  | [], h => by
    simp [goContains, List.isEmpty_iff] at h
    exact absurd h hsep
  | c :: cs, h => by
    by_cases hp : hasPrefix sep (c :: cs) = true
    · simp [splitAtFirst, hp]
    · have hrec : goContains cs sep = true := by
        simpa [goContains, hp] using h
      have := goContains_splitAtFirst sep hsep hrec
      simp only [splitAtFirst, hp, if_false]
      simpa [Option.isSome_map'] using this



/-! ## Facts about the parse model -/

theorem bearerSep_ne_nil : bearerSep ≠ [] := by decide

theorem parseRequestURI_repr {s : Str} {u : GoURL} (h : parseRequestURI s = some u) :
    u.repr = goURLString s := by
  unfold parseRequestURI at h
  split at h
  · injection h with h
    subst h
    rfl
  · exact Option.noConfusion h

theorem parseRequestURI_path_of_slash {s : Str} {u : GoURL}
    (h : parseRequestURI s = some u) (hs : hasPrefix ("/".toList) s = true) :
    u.path = s := by
  unfold parseRequestURI at h
  split at h
  · injection h with h
    subst h
    simp [hs]
  · exact Option.noConfusion h

theorem parseRequestURI_slash_key {key : Str}
    (hkey : key.all (fun c => urlOkChar c && decide (c ≠ '/')) = true) :
    parseRequestURI ('/' :: key) = some ⟨'/' :: key, '/' :: key⟩ := by
  have hall : ('/' :: key).all urlOkChar = true := by
    rw [List.all_cons]
    refine (Bool.and_eq_true ..).mpr ⟨by decide, ?_⟩
    rw [List.all_eq_true] at hkey ⊢
    exact fun c hc => ((Bool.and_eq_true ..).mp (hkey c hc)).1
  have hpre : hasPrefix ['/'] ('/' :: key) = true := by
    simp [hasPrefix]
  simp [parseRequestURI, goURLString, hall, hpre]

theorem replaceAllSlash_slash_key {key : Str}
    (hkey : key.all (fun c => urlOkChar c && decide (c ≠ '/')) = true) :
    replaceAllSlash ('/' :: key) = key := by
  unfold replaceAllSlash
  rw [List.filter_cons_of_neg (by decide)]
  rw [List.filter_eq_self]
  rw [List.all_eq_true] at hkey
  exact fun c hc => ((Bool.and_eq_true ..).mp (hkey c hc)).2



/-! ## Spec-side definitions used to state claim C5 -/

/-- Spec-side reading of claim C5, as stated: the entire substring of the
header after the first occurrence of `sep`. -/
def afterFirstOccurrence (sep s : Str) : Option Str :=
  (splitAtFirst sep s).map (fun pr => pr.2)

/-- Spec-side reading of the amended claim C5: the substring after the first
occurrence of `sep`, truncated at its own first occurrence of `sep`. -/
def afterFirstUpToNext (sep s : Str) : Option Str :=
  (splitAtFirst sep s).map (fun pr =>
    match splitAtFirst sep pr.2 with
    | none => pr.2
    | some qr => qr.1)

/-! ## Claim theorems -/

/-- C9: for every Authorization header that passes the guard of the create
handler (nonempty and containing `"Bearer "`), splitting the header on
`"Bearer "` yields at least two elements, so the index-1 access never goes
out of bounds. -/
theorem bearer_split_has_two_elements (authHeader : Str)
    (_hlen : ¬ authHeader.length < 1)
    (hcont : goContains authHeader bearerSep = true) :
    2 ≤ (goSplit bearerSep authHeader).length := by
  obtain ⟨⟨pre, post⟩, hsp⟩ :=
    Option.isSome_iff_exists.mp (goContains_splitAtFirst bearerSep bearerSep_ne_nil hcont)
  rw [splitAtFirst_some bearerSep bearerSep_ne_nil hsp]
  cases hg : goSplit bearerSep post with
  | nil => exact absurd hg (goSplit_ne_nil bearerSep bearerSep_ne_nil post)
  | cons a t => simp [hg]

/-- Witness for C9 at the concrete header "Bearer x". -/
theorem bearer_split_has_two_elements_witness :
    2 ≤ (goSplit bearerSep ("Bearer x".toList)).length :=
  bearer_split_has_two_elements ("Bearer x".toList) (by decide) (by decide)

/-- Counterexample to C5 as stated: for the header "Bearer aBearer b" the
substring after the first occurrence of "Bearer " is "aBearer b", but the
token the handler extracts is "a". -/
theorem bearer_token_not_whole_suffix :
    afterFirstOccurrence bearerSep ("Bearer aBearer b".toList) = some ("aBearer b".toList) ∧
    extractBearerToken ("Bearer aBearer b".toList) = some ("a".toList) ∧
    ("a".toList : Str) ≠ ("aBearer b".toList : Str) := by decide

/-- C5 (amended): for every header containing `"Bearer "`, the token passed
to validation is the substring after the first occurrence of `"Bearer "`
truncated at the next occurrence of `"Bearer "`, when there is one. -/
theorem extractBearerToken_eq_afterFirstUpToNext (authHeader : Str)
    (hcont : goContains authHeader bearerSep = true) :
    extractBearerToken authHeader = afterFirstUpToNext bearerSep authHeader := by
  obtain ⟨⟨pre, post⟩, hsp⟩ :=
    Option.isSome_iff_exists.mp (goContains_splitAtFirst bearerSep bearerSep_ne_nil hcont)
  unfold extractBearerToken afterFirstUpToNext
  rw [splitAtFirst_some bearerSep bearerSep_ne_nil hsp]
  cases hq : splitAtFirst bearerSep post with
  | none => rw [splitAtFirst_none bearerSep hq]; simp [hsp, hq]
  | some qr =>
    obtain ⟨pre2, post2⟩ := qr
    rw [splitAtFirst_some bearerSep bearerSep_ne_nil hq]
    simp [hsp, hq]

/-- Witness for C5 at the concrete header "Bearer x". -/
theorem extractBearerToken_eq_afterFirstUpToNext_witness :
    extractBearerToken ("Bearer x".toList) = afterFirstUpToNext bearerSep ("Bearer x".toList) :=
  extractBearerToken_eq_afterFirstUpToNext ("Bearer x".toList) (by decide)

/-- Counterexample to C6 as stated: with two identical stored token rows the
lookup matches more than one row, yet validation returns true, so "exactly
one stored row equals the input" is not equivalent to the result. -/
theorem validate_token_duplicate_rows :
    validateAuthorization ⟨["t".toList, "t".toList], []⟩ ("t".toList) = true ∧
    ((["t".toList, "t".toList] : List Str).filter
        (fun k => decide (k = "t".toList))).length ≠ 1 := by decide

/-- C6 (amended): validation succeeds iff at least one stored token row
equals the presented token; in particular it returns false when the lookup
finds no row. -/
theorem validateAuthorization_iff_mem (d : DBState) (token : Str) :
    validateAuthorization d token = true ↔ token ∈ d.authKeys := by
  unfold validateAuthorization
  cases hf : (d.authKeys.filter (fun k => decide (k = token))).head? with
  | none =>
    simp only [Bool.false_eq_true, false_iff]
    intro hmem
    have : d.authKeys.filter (fun k => decide (k = token)) = [] :=
      List.head?_eq_none_iff.mp hf
    have := List.filter_eq_nil_iff.mp this token hmem
    simp at this
  | some dbToken =>
    have hmem : dbToken ∈ d.authKeys.filter (fun k => decide (k = token)) :=
      List.mem_of_mem_head? (hf ▸ rfl)
    rw [List.mem_filter] at hmem
    obtain ⟨hin, heq⟩ := hmem
    simp only [decide_eq_true_eq] at heq
    subst heq
    simp [hin]

/-- C7: provisioning the default token inserts exactly one fresh token and
returns it when no token row exists, is a no-op returning the empty string
and no error when one does, and a second provisioning attempt is always such
a no-op. -/
theorem provision_default_token_idempotent (f1 f2 : Str) (d : DBState) :
    generateDefaultAuthorizationToken f1 d =
      (match d.authKeys with
       | [] => ((f1, none), ⟨[f1], d.links⟩)
       | _ :: _ => (([], none), d)) ∧
    (generateDefaultAuthorizationToken f2 (generateDefaultAuthorizationToken f1 d).2).1
      = ([], none) ∧
    (generateDefaultAuthorizationToken f2 (generateDefaultAuthorizationToken f1 d).2).2
      = (generateDefaultAuthorizationToken f1 d).2 := by
  obtain ⟨ak, l⟩ := d
  cases ak with
  | nil => simp [generateDefaultAuthorizationToken]
  | cons a t => simp [generateDefaultAuthorizationToken]

/-- C8: on a GET expand request, a lookup that returns an error yields the
500 response with body "Failed to get full url" and no redirect, a lookup
that returns a row yields the 307 redirect to the stored URL, and the lookup
errors for every well-formed path whose slash-stripped token was never
inserted. -/
theorem expand_lookup_behavior (d : DBState) (reqPath : Str) :
    (getFullUrl d reqPath = .noRows →
      expandLinkHandler d methodGet reqPath =
        .httpError ("Failed to get full url".toList) 500) ∧
    (∀ fullUrl, getFullUrl d reqPath = .ok fullUrl →
      expandLinkHandler d methodGet reqPath = .redirect fullUrl 307) ∧
    (∀ u, parseRequestURI reqPath = some u →
      (∀ row ∈ d.links, row.1 ≠ replaceAllSlash u.path) →
      getFullUrl d reqPath = .noRows) := by
  refine ⟨fun h => ?_, fun fullUrl h => ?_, fun u hu hrow => ?_⟩
  · simp [expandLinkHandler, h]
  · simp [expandLinkHandler, h]
  · unfold getFullUrl
    rw [hu]
    have : d.links.filter (fun p => decide (p.1 = replaceAllSlash u.path)) = [] :=
      List.filter_eq_nil_iff.mpr (fun row hr => by simpa using hrow row hr)
    simp [this]

/-- C10: the lookup only depends on the request path through its
slash-stripped form: two well-formed origin-form request paths that agree
after removing every slash query the same token and expand identically. -/
theorem getFullUrl_slash_insensitive (d : DBState) (p1 p2 : Str) (u1 u2 : GoURL)
    (h1 : parseRequestURI p1 = some u1) (h2 : parseRequestURI p2 = some u2)
    (hs1 : hasPrefix ("/".toList) p1 = true) (hs2 : hasPrefix ("/".toList) p2 = true)
    (heq : replaceAllSlash p1 = replaceAllSlash p2) :
    replaceAllSlash u1.path = replaceAllSlash u2.path ∧
      getFullUrl d p1 = getFullUrl d p2 := by
  have e1 := parseRequestURI_path_of_slash h1 hs1
  have e2 := parseRequestURI_path_of_slash h2 hs2
  constructor
  · rw [e1, e2, heq]
  · unfold getFullUrl
    rw [h1, h2]
    simp only [e1, e2, heq]

/-- Witness for C10 at the spec's example: "/ab/c" and "/abc" expand
identically. -/
theorem getFullUrl_slash_insensitive_witness :
    getFullUrl ⟨[], [("abc".toList, "https://example.com".toList)]⟩ ("/ab/c".toList) =
      getFullUrl ⟨[], [("abc".toList, "https://example.com".toList)]⟩ ("/abc".toList) :=
  (getFullUrl_slash_insensitive ⟨[], [("abc".toList, "https://example.com".toList)]⟩
    ("/ab/c".toList) ("/abc".toList)
    ⟨"/ab/c".toList, "/ab/c".toList⟩ ⟨"/abc".toList, "/abc".toList⟩
    (by decide) (by decide) (by decide) (by decide) (by decide)).2

/-- C3: evaluation at the failing input: the path "/%" (a request to
"/%25") fails `url.ParseRequestURI`, and `getFullUrl` dereferences the nil
URL before its error check — a runtime panic, not an error return. -/
theorem getFullUrl_panics_on_malformed_path :
    getFullUrl ⟨[], []⟩ ("/%".toList) = .nilPanic ∧
    expandLinkHandler ⟨[], []⟩ methodGet ("/%".toList) = .panicked := by decide



/-! ## Claims about the create handler -/

/-- Counterexample to C2 as stated: the header "xBearer tok" does not start
with the prefix "Bearer ", yet with "tok" the stored token the request is
accepted (JSON response) and a row is inserted — the guard tests substring
containment, not a prefix. -/
theorem create_accepts_non_prefixed_header :
    hasPrefix bearerSep ("xBearer tok".toList) = false ∧
    createLinkHandler ("http://s".toList) ("k1".toList) ⟨["tok".toList], []⟩
        methodPost ("xBearer tok".toList) ("https://example.com".toList)
      = (.jsonOk ("http://s/k1".toList) ("http://s/k1".toList),
         ⟨["tok".toList], [("k1".toList, "https://example.com".toList)]⟩) ∧
    ([("k1".toList, "https://example.com".toList)] : List (Str × Str)) ≠ [] := by decide

/-- C2 (amended): a create request whose Authorization header does not
contain `"Bearer "`, or whose extracted token fails validation, receives 401
Unauthorized and leaves the links store unchanged. -/
theorem create_unauthorized (base key : Str) (d : DBState)
    (method authHeader urlParam : Str)
    (h : goContains authHeader bearerSep = false ∨
      ∃ tok, extractBearerToken authHeader = some tok ∧
        validateAuthorization d tok = false) :
    createLinkHandler base key d method authHeader urlParam =
      (.httpError ("Unauthorized".toList) 401, d) := by
  cases hb : goContains authHeader bearerSep with
  | false => simp [createLinkHandler, hb]
  | true =>
    by_cases hl : authHeader.length < 1
    · simp [createLinkHandler, hl]
    · rcases h with hfalse | ⟨tok, htok, hval⟩
      · exact absurd hb (by simp [hfalse])
      · simp [createLinkHandler, hb, hl, htok, hval]

/-- Witness for C2: a well-formed header with a wrong token is refused and
the store is unchanged. -/
theorem create_unauthorized_witness :
    createLinkHandler ("http://s".toList) ("k1".toList) ⟨["tok".toList], []⟩
        methodPost ("Bearer bad".toList) ("https://example.com".toList)
      = (.httpError ("Unauthorized".toList) 401, ⟨["tok".toList], []⟩) :=
  create_unauthorized ("http://s".toList) ("k1".toList) ⟨["tok".toList], []⟩
    methodPost ("Bearer bad".toList) ("https://example.com".toList)
    (Or.inr ⟨"bad".toList, by decide, by decide⟩)

/-- Counterexample to C4 as stated: a DELETE request without an
Authorization header receives 401, not 405 — the method is only examined
after the authorization checks. -/
theorem create_unauthenticated_bad_method_is_401 :
    createLinkHandler ("http://s".toList) ("k1".toList) ⟨["tok".toList], []⟩
        ("DELETE".toList) [] ("https://example.com".toList)
      = (.httpError ("Unauthorized".toList) 401, ⟨["tok".toList], []⟩) ∧
    ("DELETE".toList : Str) ≠ methodPost ∧ ("DELETE".toList : Str) ≠ methodGet ∧
    (HResponse.httpError ("Unauthorized".toList) 401) ≠
      .httpError ("Method not supported".toList) 405 := by decide

/-- C4 (amended): a create request whose method is neither POST nor GET and
which passes the authorization checks receives 405 MethodNotAllowed, with
the store unchanged. -/
theorem create_method_not_allowed (base key : Str) (d : DBState)
    (method authHeader urlParam tok : Str)
    (hm1 : method ≠ methodPost) (hm2 : method ≠ methodGet)
    (hcont : goContains authHeader bearerSep = true)
    (htok : extractBearerToken authHeader = some tok)
    (hval : validateAuthorization d tok = true) :
    createLinkHandler base key d method authHeader urlParam =
      (.httpError ("Method not supported".toList) 405, d) := by
  have hne : authHeader ≠ [] := by
    intro hnil
    rw [hnil] at hcont
    simp [goContains, List.isEmpty_iff] at hcont
    exact bearerSep_ne_nil hcont
  have hlen : ¬ authHeader.length < 1 := by
    have := List.length_pos.mpr hne
    omega
  unfold createLinkHandler
  simp [hlen, hcont, htok, hval, hm1, hm2]

/-- Witness for C4: an authorized DELETE request receives 405. -/
theorem create_method_not_allowed_witness :
    createLinkHandler ("http://s".toList) ("k1".toList) ⟨["tok".toList], []⟩
        ("DELETE".toList) ("Bearer tok".toList) ("https://example.com".toList)
      = (.httpError ("Method not supported".toList) 405, ⟨["tok".toList], []⟩) :=
  create_method_not_allowed ("http://s".toList) ("k1".toList) ⟨["tok".toList], []⟩
    ("DELETE".toList) ("Bearer tok".toList) ("https://example.com".toList) ("tok".toList)
    (by decide) (by decide) (by decide) (by decide) (by decide)



/-- Counterexample to C1 as stated: "HTTPS://example.com" is a
syntactically valid absolute URL the parser accepts, but the handler stores
`url.String()` of its parse, which lowercases the scheme — the stored
full_url and the redirect target are "https://example.com", not exactly the
submitted URL. -/
theorem create_expand_normalizes_scheme :
    (parseRequestURI ("HTTPS://example.com".toList)).isSome = true ∧
    createLinkHandler ("http://s".toList) ("k1".toList) ⟨["tok".toList], []⟩
        methodPost ("Bearer tok".toList) ("HTTPS://example.com".toList)
      = (.jsonOk ("http://s/k1".toList) ("http://s/k1".toList),
         ⟨["tok".toList], [("k1".toList, "https://example.com".toList)]⟩) ∧
    expandLinkHandler ⟨["tok".toList], [("k1".toList, "https://example.com".toList)]⟩
        methodGet ("/k1".toList)
      = .redirect ("https://example.com".toList) 307 ∧
    ("https://example.com".toList : Str) ≠ ("HTTPS://example.com".toList : Str) := by decide

/-- C1 (amended): a URL stored through the create handler round-trips to
its canonical re-serialization.  Whenever the create handler answers with
the JSON success body, that body carries the short URL built from the fresh
key, the store maps the key to `url.String()` of the submitted URL — Go's
canonical form, which lowercases an absolute URL's scheme — and a GET
expand request on the short URL's path is a 307 redirect to exactly that
stored canonical form; when the submitted URL is already canonical the
redirect target is exactly the submitted URL.  `hkey` states that the
fresh key is made of URL-safe characters without slashes, as `shortuuid`
keys are. -/
theorem create_expand_roundtrip (base key : Str) (d : DBState)
    (method authHeader U : Str) (resp : HResponse) (d2 : DBState)
    (hkey : key.all (fun c => urlOkChar c && decide (c ≠ '/')) = true)
    (hrun : createLinkHandler base key d method authHeader U = (resp, d2))
    (hjson : ∃ s1 s2, resp = .jsonOk s1 s2) :
    resp = .jsonOk (mkShortURL base key) (mkShortURL base key) ∧
    (key, goURLString U) ∈ d2.links ∧
    expandLinkHandler d2 methodGet ('/' :: key) = .redirect (goURLString U) 307 ∧
    (canonicalizeScheme U = U →
      expandLinkHandler d2 methodGet ('/' :: key) = .redirect U 307) := by
  obtain ⟨s1, s2, rfl⟩ := hjson
  unfold createLinkHandler at hrun
  split at hrun
  · simp at hrun
  · split at hrun
    · simp at hrun
    · rename_i token htoken
      split at hrun
      · simp at hrun
      · split at hrun
        · rename_i hmethod
          split at hrun
          · simp at hrun
          · rename_i u hparse
            split at hrun
            · simp at hrun
            · rename_i heq2
              -- the successful insert: unpack saveShortUrl
              rename_i short d2x
              unfold saveShortUrl at heq2
              split at heq2
              · simp at heq2
              · rename_i hany
                simp only [Prod.mk.injEq] at heq2 hrun
                obtain ⟨⟨hshort, -⟩, hd2x⟩ := heq2
                obtain ⟨hresp, hd2⟩ := hrun
                have hrepr : u.repr = goURLString U := parseRequestURI_repr hparse
                subst hd2x
                have hd2links : d2.links = d.links ++ [(key, goURLString U)] := by
                  rw [← hd2, ← hrepr]
                have h3 : expandLinkHandler d2 methodGet ('/' :: key) =
                    .redirect (goURLString U) 307 := by
                  have hfilter : d2.links.filter (fun p => decide (p.1 = key)) =
                      [(key, goURLString U)] := by
                    rw [hd2links, List.filter_append]
                    have hnil : d.links.filter (fun p => decide (p.1 = key)) = [] := by
                      rw [List.filter_eq_nil_iff]
                      intro p hp hpk
                      exact hany (List.any_eq_true.mpr ⟨p, hp, hpk⟩)
                    rw [hnil]
                    simp
                  simp only [expandLinkHandler, getFullUrl,
                    parseRequestURI_slash_key hkey, replaceAllSlash_slash_key hkey,
                    hfilter]
                  simp
                refine ⟨?_, ?_, h3, fun hcanon => ?_⟩
                · rw [← hresp, ← hshort]
                · rw [hd2links]
                  simp
                · have hgu : goURLString U = U := by
                    unfold goURLString
                    split
                    · rfl
                    · exact hcanon
                  rw [← hgu]
                  exact h3
        · simp at hrun

/-- Witness for C1 at a concrete run: creating "https://example.com" under
key "abc" with the valid token and then expanding "/abc". -/
theorem create_expand_roundtrip_witness :
    expandLinkHandler ⟨["tok".toList], [("abc".toList, "https://example.com".toList)]⟩
        methodGet ('/' :: "abc".toList)
      = .redirect ("https://example.com".toList) 307 :=
  (create_expand_roundtrip ("http://sho.rt".toList) ("abc".toList) ⟨["tok".toList], []⟩
    methodPost ("Bearer tok".toList) ("https://example.com".toList)
    (.jsonOk ("http://sho.rt/abc".toList) ("http://sho.rt/abc".toList))
    ⟨["tok".toList], [("abc".toList, "https://example.com".toList)]⟩
    (by decide) (by decide) ⟨_, _, rfl⟩).2.2.2 (by decide)


end Smolink
